import Mathlib

/- Verification of the quiz bot core (witcher_quiz_bot.py): the question
catalog, the two plan builders and the per-user session state machine.

Modelling conventions:
 - Python object identity (the source deduplicates selected questions with
   id(q)) is modelled by the qid field; a catalog loaded from JSON consists
   of pairwise distinct objects, i.e. (catalog.map Question.qid).Nodup.
 - random.shuffle is modelled by an oracle sh : Nat -> List Question ->
   List Question together with the assumption IsShuffler sh that every call
   returns a permutation of its input; each call site of the source uses a
   distinct oracle index, so any combination of random outcomes is covered.
 - The global per-user dictionaries (user_scores, user_difficulty,
   user_question_list, user_question_index) and the per-user
   context.user_data entry current_question become the fields of Session;
   a missing dictionary entry is none. -/

/-- One record of questions.json: fields question, options, correct_answer,
optional explanation, optional difficulty (q.get reads it with default 3).
qid models Python object identity. -/
structure Question where
  qid : Nat
  question : String
  options : List String
  correct_answer : String
  explanation : Option String
  difficulty : Option Int
deriving DecidableEq, Inhabited

/-- q.get applied to the difficulty key with default 3. -/
def difficultyOf (q : Question) : Int :=
  q.difficulty.getD 3

/-- The grouping loop of _build_all_levels_plan: groups[lvl] collects, in
catalog order, the questions whose difficulty (default 3) equals lvl; also
the pool comprehension of _build_single_level_plan. -/
def groupsOf (catalog : List Question) (lvl : Int) : List Question :=
  catalog.filter fun q => decide (difficultyOf q = lvl)

/-- The difficulty tiers 1..5 iterated by the builders. -/
def tierLevels : List Int := [1, 2, 3, 4, 5]

/-- The shuffle oracle returns a permutation of its input at every call. -/
def IsShuffler (sh : Nat → List Question → List Question) : Prop :=
  ∀ i l, List.Perm (sh i l) l

/-- First pass of _build_all_levels_plan: for each level 1..5, shuffle a
copy of the pool and take up to 2 (pool[:min 2 len] = pool[:2]). -/
def firstPass (sh : Nat → List Question → List Question)
    (catalog : List Question) : List Question :=
  (sh 1 (groupsOf catalog 1)).take 2 ++ (sh 2 (groupsOf catalog 2)).take 2 ++
  (sh 3 (groupsOf catalog 3)).take 2 ++ (sh 4 (groupsOf catalog 4)).take 2 ++
  (sh 5 (groupsOf catalog 5)).take 2

/-- The remaining list built by the backfill branch before deduplication:
each level pool shuffled again and concatenated. -/
def remainingPool (sh : Nat → List Question → List Question)
    (catalog : List Question) : List Question :=
  sh 6 (groupsOf catalog 1) ++ sh 7 (groupsOf catalog 2) ++
  sh 8 (groupsOf catalog 3) ++ sh 9 (groupsOf catalog 4) ++
  sh 10 (groupsOf catalog 5)

/-- The backfill branch's remaining list after the identity dedup of the
source (selected_ids is the set of ids of the first-pass selection). -/
def backfillPool (sh : Nat → List Question → List Question)
    (catalog : List Question) : List Question :=
  (remainingPool sh catalog).filter
    fun q => decide (q.qid ∉ (firstPass sh catalog).map Question.qid)

/-- _build_all_levels_plan: two per tier, backfill by identity-dedup when
fewer than 10 were collected, final shuffle, truncate to 10. -/
def buildAllLevelsPlan (sh : Nat → List Question → List Question)
    (catalog : List Question) : List Question :=
  let plan0 := firstPass sh catalog
  let plan1 :=
    if plan0.length < 10 then
      plan0 ++ (sh 11 (backfillPool sh catalog)).take (10 - plan0.length)
    else plan0
  (sh 12 plan1).take 10

/-- _build_single_level_plan: shuffle the level's pool, take up to 10. -/
def buildSingleLevelPlan (sh : Nat → List Question → List Question)
    (catalog : List Question) (lvl : Int) : List Question :=
  (sh 0 (groupsOf catalog lvl)).take 10

/-- user_difficulty values: the sentinel string for all levels, or an
integer level from the difficulty keyboard. -/
inductive Difficulty where
  | all : Difficulty
  | level : Int → Difficulty
deriving DecidableEq

/-- Per-user mutable state: user_scores, user_difficulty,
user_question_list, user_question_index and the current_question entry of
context.user_data; none is a missing dictionary entry. -/
structure Session where
  score : Option Nat
  difficulty : Option Difficulty
  plan : Option (List Question)
  index : Option Nat
  current : Option Question
deriving DecidableEq

/-- Observable outcome of the quiz command: the three failure replies and
   the question message (question, 1-based position, plan length). -/
inductive QuizOutcome where
  | noQuestions : QuizOutcome
  | noneForAll : QuizOutcome
  | noneForLevel : Int → QuizOutcome
  | asked : Question → Nat → Nat → QuizOutcome
deriving DecidableEq

/-- Observable outcome of handle_answer: the restart-please error reply, or
an answer reply carrying correctness, the correct answer text, and the
completion summary (final score, total) when the session just finished. -/
inductive AnswerOutcome where
  | invalidState : AnswerOutcome
  | result : Bool → String → Option (Nat × Nat) → AnswerOutcome
deriving DecidableEq

/-- Plan construction dispatch of quiz on the stored difficulty. -/
def buildFor (sh : Nat → List Question → List Question)
    (catalog : List Question) : Difficulty → List Question
  | Difficulty.all => buildAllLevelsPlan sh catalog
  | Difficulty.level lvl => buildSingleLevelPlan sh catalog lvl

/-- Tail of quiz: question = plan[idx], store it as current_question and
send it with its 1-based position and the plan length. -/
def serveQuestion (s : Session) (plan : List Question) (idx : Nat) :
    Session × QuizOutcome :=
  let q := plan.getD idx default
  ({ s with current := some q }, QuizOutcome.asked q (idx + 1) plan.length)

/-- The quiz command handler: initialise missing score/difficulty entries,
refuse on an empty catalog, rebuild the plan (resetting the score first)
when there is no unfinished plan, then serve plan[idx]. -/
def quiz (sh : Nat → List Question → List Question)
    (catalog : List Question) (s : Session) : Session × QuizOutcome :=
  let s0 : Session :=
    { s with score := some (s.score.getD 0),
             difficulty := some (s.difficulty.getD Difficulty.all) }
  if catalog = [] then (s0, QuizOutcome.noQuestions)
  else
    let plan := s0.plan.getD []
    let idx := s0.index.getD 0
    if plan = [] ∨ plan.length ≤ idx then
      let s1 : Session := { s0 with score := some 0 }
      let diff := s0.difficulty.getD Difficulty.all
      let newPlan := buildFor sh catalog diff
      if newPlan = [] then
        (s1,
          match diff with
          | Difficulty.all => QuizOutcome.noneForAll
          | Difficulty.level lvl => QuizOutcome.noneForLevel lvl)
      else
        serveQuestion { s1 with plan := some newPlan, index := some 0 }
          newPlan 0
    else
      serveQuestion s0 plan idx

/-- The answer callback handler: error reply when no current_question is
stored; otherwise exact string comparison with correct_answer, score
increment on success, index advance, and on exhaustion the completion
summary (total = len(plan) if plan else 10) followed by the plan/index
reset. current_question is never modified here. -/
def handle_answer (s : Session) (userAnswer : String) :
    Session × AnswerOutcome :=
  match s.current with
  | none => (s, AnswerOutcome.invalidState)
  | some q =>
    let correct := userAnswer == q.correct_answer
    let s1 : Session :=
      if correct then { s with score := some (s.score.getD 0 + 1) } else s
    let idx := s1.index.getD 0 + 1
    let s2 : Session := { s1 with index := some idx }
    let plan := s1.plan.getD []
    if plan.length ≤ idx then
      let finalScore := s2.score.getD 0
      let total := if plan = [] then 10 else plan.length
      ({ s2 with plan := some [], index := some 0 },
        AnswerOutcome.result correct q.correct_answer (some (finalScore, total)))
    else
      (s2, AnswerOutcome.result correct q.correct_answer none)

/-- A question record has an in-range difficulty tier. -/
def inTier (q : Question) : Bool :=
  decide (difficultyOf q ∈ tierLevels)

/-- The five per-tier pools laid out one after the other (no shuffling);
firstPass is tierwise contained in it and remainingPool is tierwise a
permutation of it. -/
def groupsConcat (catalog : List Question) : List Question :=
  groupsOf catalog 1 ++ groupsOf catalog 2 ++ groupsOf catalog 3 ++
  groupsOf catalog 4 ++ groupsOf catalog 5

/-- Sample question with identity i and difficulty d, for concrete runs. -/
def wq (i : Nat) (d : Int) : Question :=
  { qid := i, question := "q", options := ["a", "b"],
    correct_answer := "a", explanation := none, difficulty := some d }

/-- The identity shuffle oracle, one admissible random outcome. -/
def idShuffle : Nat → List Question → List Question := fun _ l => l

/-- Catalog with exactly two questions in every tier 1..5. -/
def wcatFull : List Question :=
  [wq 0 1, wq 1 1, wq 2 2, wq 3 2, wq 4 3, wq 5 3, wq 6 4, wq 7 4,
   wq 8 5, wq 9 5]

/-- Catalog with seven questions unevenly spread over the tiers. -/
def wcatSeven : List Question :=
  [wq 0 1, wq 1 1, wq 2 1, wq 3 2, wq 4 3, wq 5 3, wq 6 5]

/-- Catalog holding one tier-1 question and one question whose difficulty
7 lies outside 1..5. -/
def wcatBad : List Question := [wq 0 1, wq 1 7]

/-- One-question catalog (difficulty 1). -/
def catOne : List Question := [wq 0 1]

/-- Two-question catalog (difficulties 1 and 2). -/
def catTwo : List Question := [wq 0 1, wq 1 2]

/-- Session in the middle of a two-question plan, first question pending. -/
def sessionMid : Session :=
  { score := some 0, difficulty := none, plan := some [wq 0 1, wq 1 2],
    index := some 0, current := some (wq 0 1) }

/-- Session on the last (only) question of a one-question plan. -/
def sessionLast : Session :=
  { score := some 2, difficulty := some Difficulty.all,
    plan := some [wq 0 1], index := some 0, current := some (wq 0 1) }

/-- Session with no pending question. -/
def sessionNoPending : Session :=
  { score := some 3, difficulty := none, plan := none, index := none,
    current := none }

/-- Session after a finished quiz: score 7, exhausted (empty) plan, and
difficulty pointing at tier 5. -/
def sessionDone : Session :=
  { score := some 7, difficulty := some (Difficulty.level 5),
    plan := some [], index := some 0, current := none }

/-- Session with an in-progress two-question plan, one answered. -/
def sessionInProgress : Session :=
  { score := some 1, difficulty := some Difficulty.all,
    plan := some [wq 0 1, wq 1 2], index := some 1,
    current := some (wq 1 2) }

theorem idShuffle_ok : IsShuffler idShuffle :=
  fun _ _ => List.Perm.refl _

/-- The score handle_answer stores: incremented exactly on a string match
with correct_answer, untouched otherwise. -/
theorem handle_answer_score (s : Session) (q : Question) (ans : String)
    (hq : s.current = some q) :
    (handle_answer s ans).1.score =
      if ans = q.correct_answer then some (s.score.getD 0 + 1)
      else s.score := by
  by_cases hc : ans = q.correct_answer <;>
    simp only [handle_answer, hq, hc, beq_iff_eq, if_true, if_false,
      beq_self_eq_true, ite_true, ite_false] <;>
    split <;> rfl

/-- Claim C7: handle_answer with no stored current_question replies with
the restart-please error and leaves the whole session, in particular the
score, unchanged. -/
theorem no_pending_invalid_state (s : Session) (ans : String)
    (h : s.current = none) :
    (handle_answer s ans).2 = AnswerOutcome.invalidState ∧
    (handle_answer s ans).1 = s ∧
    (handle_answer s ans).1.score = s.score := by
  simp [handle_answer, h]

/-- Claim C7 witness at a concrete no-pending session. -/
theorem no_pending_invalid_state_witness :
    (handle_answer sessionNoPending "a").2 = AnswerOutcome.invalidState ∧
    (handle_answer sessionNoPending "a").1 = sessionNoPending ∧
    (handle_answer sessionNoPending "a").1.score = sessionNoPending.score :=
  no_pending_invalid_state sessionNoPending "a" rfl

/-- Claim C6: with a pending question, handle_answer judges the chosen
option by exact string equality with correct_answer, and the stored score
becomes the old score plus exactly 1 precisely when they are equal; on
any other answer the score entry is untouched. -/
theorem answer_scoring_exact (s : Session) (q : Question) (ans : String)
    (hq : s.current = some q) :
    ((handle_answer s ans).1.score = some (s.score.getD 0 + 1) ↔
      ans = q.correct_answer) ∧
    (ans ≠ q.correct_answer → (handle_answer s ans).1.score = s.score) := by
  have h := handle_answer_score s q ans hq
  by_cases hc : ans = q.correct_answer
  · refine ⟨?_, fun hne => absurd hc hne⟩
    rw [h, if_pos hc]
    simp [hc]
  · rw [h, if_neg hc]
    refine ⟨⟨fun habs => ?_, fun hh => absurd hh hc⟩, fun _ => rfl⟩
    cases hs : s.score with
    | none => rw [hs] at habs; exact Option.noConfusion habs
    | some n =>
      rw [hs] at habs
      simp at habs

/-- Claim C6 witness at a concrete pending question, correct answer. -/
theorem answer_scoring_exact_witness :
    ((handle_answer sessionMid "a").1.score =
        some (sessionMid.score.getD 0 + 1) ↔
      "a" = (wq 0 1).correct_answer) ∧
    ("a" ≠ (wq 0 1).correct_answer →
      (handle_answer sessionMid "a").1.score = sessionMid.score) :=
  answer_scoring_exact sessionMid (wq 0 1) "a" rfl

/-- Claim C5: when handle_answer processes the last question of the served
plan, the completion summary's denominator is the plan's actual length,
never the constant 10. -/
theorem completion_total_is_plan_length (s : Session) (q : Question)
    (p : List Question) (ans : String)
    (hq : s.current = some q) (hp : s.plan = some p) (hne : p ≠ [])
    (hlast : p.length ≤ s.index.getD 0 + 1) :
    ∃ fs : Nat, (handle_answer s ans).2 =
      AnswerOutcome.result (ans == q.correct_answer) q.correct_answer
        (some (fs, p.length)) := by
  by_cases hc : ans = q.correct_answer
  · exact ⟨s.score.getD 0 + 1, by
      simp [handle_answer, hq, hc, hp, hne, hlast]⟩
  · exact ⟨s.score.getD 0, by
      simp [handle_answer, hq, hc, hp, hne, hlast]⟩

/-- Claim C5 witness: a one-question plan ends with denominator 1. -/
theorem completion_total_witness :
    ∃ fs : Nat, (handle_answer sessionLast "b").2 =
      AnswerOutcome.result ("b" == (wq 0 1).correct_answer)
        (wq 0 1).correct_answer (some (fs, [wq 0 1].length)) :=
  completion_total_is_plan_length sessionLast (wq 0 1) [wq 0 1] "b"
    rfl rfl (by decide) (by decide)

/-- Claim C8 (amended): after a handle_answer with a pending question the
stored position has advanced by exactly 1 when further questions remain;
on the last question the advance is immediately followed by the
completion reset of position to 0 and plan to empty. In both cases
current_question still holds the answered question: it is not cleared. -/
theorem answer_advances_position (s : Session) (q : Question) (ans : String)
    (hq : s.current = some q) :
    (handle_answer s ans).1.current = some q ∧
    (s.index.getD 0 + 1 < (s.plan.getD []).length →
      (handle_answer s ans).1.index = some (s.index.getD 0 + 1)) ∧
    ((s.plan.getD []).length ≤ s.index.getD 0 + 1 →
      (handle_answer s ans).1.index = some 0 ∧
      (handle_answer s ans).1.plan = some []) := by
  by_cases hc : ans = q.correct_answer <;>
    by_cases hl : (s.plan.getD []).length ≤ s.index.getD 0 + 1 <;>
      simp [handle_answer, hq, hc, hl]

/-- Claim C8 witness at a concrete mid-plan answer. -/
theorem answer_advances_position_witness :
    (handle_answer sessionMid "a").1.current = some (wq 0 1) ∧
    (sessionMid.index.getD 0 + 1 < (sessionMid.plan.getD []).length →
      (handle_answer sessionMid "a").1.index =
        some (sessionMid.index.getD 0 + 1)) ∧
    ((sessionMid.plan.getD []).length ≤ sessionMid.index.getD 0 + 1 →
      (handle_answer sessionMid "a").1.index = some 0 ∧
      (handle_answer sessionMid "a").1.plan = some []) :=
  answer_advances_position sessionMid (wq 0 1) "a" rfl

/-- Claim C8 counterexample: the source never clears current_question; at
a concrete mid-plan answer the position advances to 1 but the pending
question is still stored, not set to none. -/
theorem answer_pending_not_cleared_cex :
    (handle_answer sessionMid "b").1.index = some 1 ∧
    (handle_answer sessionMid "b").1.current = some (wq 0 1) ∧
    (handle_answer sessionMid "b").1.current ≠ none := by
  decide

/-- Claim C3 (amended): quiz resets the stored score to 0 whenever it
enters the plan-rebuild branch (no stored plan, empty stored plan, or
position at or past the plan's end) - including when the freshly built
plan comes up empty, in which case plan and position are otherwise left
as they were; on a successful build the new plan is stored with position
0. A quiz call that finds an in-progress plan leaves the score (only
initialised to 0 if the entry was missing) unchanged. -/
theorem quiz_score_reset_at_build (sh : Nat → List Question → List Question)
    (catalog : List Question) (s : Session) (hcat : catalog ≠ []) :
    ((s.plan.getD [] = [] ∨ (s.plan.getD []).length ≤ s.index.getD 0) →
      (quiz sh catalog s).1.score = some 0 ∧
      (buildFor sh catalog (s.difficulty.getD Difficulty.all) = [] →
        (quiz sh catalog s).1.plan = s.plan ∧
        (quiz sh catalog s).1.index = s.index) ∧
      (buildFor sh catalog (s.difficulty.getD Difficulty.all) ≠ [] →
        (quiz sh catalog s).1.plan =
          some (buildFor sh catalog (s.difficulty.getD Difficulty.all)) ∧
        (quiz sh catalog s).1.index = some 0)) ∧
    ((s.plan.getD [] ≠ [] ∧ s.index.getD 0 < (s.plan.getD []).length) →
      (quiz sh catalog s).1.score = some (s.score.getD 0)) := by
  by_cases hcond : s.plan.getD [] = [] ∨ (s.plan.getD []).length ≤ s.index.getD 0
  · constructor
    · intro _
      by_cases hemp :
          buildFor sh catalog (s.difficulty.getD Difficulty.all) = [] <;>
        simp [quiz, hcat, hcond, hemp, serveQuestion]
    · intro h
      obtain ⟨h1, h2⟩ := h
      rcases hcond with hc0 | hc0
      · exact absurd hc0 h1
      · omega
  · simp [quiz, hcat, hcond, serveQuestion]

/-- Claim C3 witness: exhausted plan with an empty tier-5 build. -/
theorem quiz_score_reset_at_build_witness :
    ((sessionDone.plan.getD [] = [] ∨
        (sessionDone.plan.getD []).length ≤ sessionDone.index.getD 0) →
      (quiz idShuffle catOne sessionDone).1.score = some 0 ∧
      (buildFor idShuffle catOne
          (sessionDone.difficulty.getD Difficulty.all) = [] →
        (quiz idShuffle catOne sessionDone).1.plan = sessionDone.plan ∧
        (quiz idShuffle catOne sessionDone).1.index = sessionDone.index) ∧
      (buildFor idShuffle catOne
          (sessionDone.difficulty.getD Difficulty.all) ≠ [] →
        (quiz idShuffle catOne sessionDone).1.plan =
          some (buildFor idShuffle catOne
            (sessionDone.difficulty.getD Difficulty.all)) ∧
        (quiz idShuffle catOne sessionDone).1.index = some 0)) ∧
    ((sessionDone.plan.getD [] ≠ [] ∧
        sessionDone.index.getD 0 < (sessionDone.plan.getD []).length) →
      (quiz idShuffle catOne sessionDone).1.score =
        some (sessionDone.score.getD 0)) :=
  quiz_score_reset_at_build idShuffle catOne sessionDone (by decide)

/-- Claim C3 counterexample: a quiz call whose plan build comes up empty
has already zeroed the score: from a session holding score 7 and an
exhausted plan, with difficulty pointing at the empty tier 5 of a
nonempty catalog, quiz reports the empty tier yet stores score 0, not the
previous 7. -/
theorem quiz_empty_build_resets_score_cex :
    (quiz idShuffle catOne sessionDone).2 = QuizOutcome.noneForLevel 5 ∧
    (quiz idShuffle catOne sessionDone).1.score = some 0 ∧
    (quiz idShuffle catOne sessionDone).1.score ≠ sessionDone.score := by
  decide

/-- Claim C4 (amended): a quiz call that finds an in-progress plan does
not build a fresh one: plan, position and score are unchanged and the
question at the current position is served again, so two consecutive
quiz calls with no answer in between re-present the same question of the
same plan. -/
theorem quiz_continues_in_progress
    (sh : Nat → List Question → List Question)
    (catalog : List Question) (s : Session) (hcat : catalog ≠ [])
    (hne : s.plan.getD [] ≠ [])
    (hidx : s.index.getD 0 < (s.plan.getD []).length) :
    (quiz sh catalog s).1.plan = s.plan ∧
    (quiz sh catalog s).1.index = s.index ∧
    (quiz sh catalog s).1.score = some (s.score.getD 0) ∧
    (quiz sh catalog s).2 =
      QuizOutcome.asked ((s.plan.getD []).getD (s.index.getD 0) default)
        (s.index.getD 0 + 1) (s.plan.getD []).length := by
  have hcond : ¬(s.plan.getD [] = [] ∨
      (s.plan.getD []).length ≤ s.index.getD 0) := by
    push_neg
    exact ⟨hne, hidx⟩
  simp [quiz, hcat, hcond, serveQuestion]

/-- Claim C4 witness at a concrete in-progress session. -/
theorem quiz_continues_in_progress_witness :
    (quiz idShuffle catTwo sessionInProgress).1.plan =
      sessionInProgress.plan ∧
    (quiz idShuffle catTwo sessionInProgress).1.index =
      sessionInProgress.index ∧
    (quiz idShuffle catTwo sessionInProgress).1.score =
      some (sessionInProgress.score.getD 0) ∧
    (quiz idShuffle catTwo sessionInProgress).2 =
      QuizOutcome.asked
        ((sessionInProgress.plan.getD []).getD
          (sessionInProgress.index.getD 0) default)
        (sessionInProgress.index.getD 0 + 1)
        (sessionInProgress.plan.getD []).length :=
  quiz_continues_in_progress idShuffle catTwo sessionInProgress
    (by decide) (by decide) (by decide)

/-- Claim C4 counterexample: with an in-progress two-question plan and one
correct answer given, a second quiz call keeps position 1 and score 1 and
re-serves the stored plan's second question - it does not produce a fresh
plan, which would restart at position 0 with score 0. -/
theorem quiz_no_fresh_plan_cex :
    (quiz idShuffle catTwo sessionInProgress).1.index = some 1 ∧
    (quiz idShuffle catTwo sessionInProgress).1.index ≠ some 0 ∧
    (quiz idShuffle catTwo sessionInProgress).1.score = some 1 ∧
    (quiz idShuffle catTwo sessionInProgress).1.score ≠ some 0 ∧
    (quiz idShuffle catTwo sessionInProgress).1.plan =
      sessionInProgress.plan ∧
    (quiz idShuffle catTwo sessionInProgress).2 =
      QuizOutcome.asked (wq 1 2) 2 2 := by
  decide

theorem mem_groupsOf {catalog : List Question} {lvl : Int} {q : Question} :
    q ∈ groupsOf catalog lvl ↔ q ∈ catalog ∧ difficultyOf q = lvl := by
  simp [groupsOf]

theorem groupsOf_map_qid_nodup {catalog : List Question} (lvl : Int)
    (h : (catalog.map Question.qid).Nodup) :
    ((groupsOf catalog lvl).map Question.qid).Nodup :=
  List.Sublist.nodup
    (List.Sublist.map Question.qid (List.filter_sublist catalog)) h

theorem mem_shuffled {sh : Nat → List Question → List Question}
    (hsh : IsShuffler sh) {i : Nat} {l : List Question} {q : Question}
    (h : q ∈ sh i l) : q ∈ l :=
  (hsh i l).mem_iff.1 h

theorem mem_shuffled_take {sh : Nat → List Question → List Question}
    (hsh : IsShuffler sh) {i n : Nat} {l : List Question} {q : Question}
    (h : q ∈ (sh i l).take n) : q ∈ l :=
  mem_shuffled hsh ((List.take_sublist n (sh i l)).subset h)

theorem mem_firstPass {sh : Nat → List Question → List Question}
    {catalog : List Question} {q : Question} (hsh : IsShuffler sh)
    (h : q ∈ firstPass sh catalog) :
    q ∈ catalog ∧ difficultyOf q ∈ tierLevels := by
  simp only [firstPass, List.mem_append] at h
  rcases h with (((h | h) | h) | h) | h <;>
    · have h' := mem_shuffled_take hsh h
      rw [mem_groupsOf] at h'
      exact ⟨h'.1, by simp [tierLevels, h'.2]⟩

theorem mem_remainingPool {sh : Nat → List Question → List Question}
    {catalog : List Question} {q : Question} (hsh : IsShuffler sh)
    (h : q ∈ remainingPool sh catalog) :
    q ∈ catalog ∧ difficultyOf q ∈ tierLevels := by
  simp only [remainingPool, List.mem_append] at h
  rcases h with (((h | h) | h) | h) | h <;>
    · have h' := mem_shuffled hsh h
      rw [mem_groupsOf] at h'
      exact ⟨h'.1, by simp [tierLevels, h'.2]⟩

theorem mem_buildAllLevelsPlan {sh : Nat → List Question → List Question}
    {catalog : List Question} {q : Question} (hsh : IsShuffler sh)
    (h : q ∈ buildAllLevelsPlan sh catalog) :
    q ∈ catalog ∧ difficultyOf q ∈ tierLevels := by
  simp only [buildAllLevelsPlan] at h
  have h1 := mem_shuffled_take hsh h
  split at h1
  · rcases List.mem_append.1 h1 with h2 | h2
    · exact mem_firstPass hsh h2
    · have h3 := mem_shuffled_take hsh h2
      rw [backfillPool, List.mem_filter] at h3
      exact mem_remainingPool hsh h3.1
  · exact mem_firstPass hsh h1

/-- Claim C9: buildSingleTierPlan returns at most 10 questions, all of the
requested tier, pairwise distinct by identity; an empty tier pool yields
the empty plan. -/
theorem single_tier_plan_props (sh : Nat → List Question → List Question)
    (hsh : IsShuffler sh) (catalog : List Question) (lvl : Int)
    (htier : 1 ≤ lvl ∧ lvl ≤ 5)
    (hids : (catalog.map Question.qid).Nodup) :
    (buildSingleLevelPlan sh catalog lvl).length ≤ 10 ∧
    (∀ q ∈ buildSingleLevelPlan sh catalog lvl, difficultyOf q = lvl) ∧
    ((buildSingleLevelPlan sh catalog lvl).map Question.qid).Nodup ∧
    (groupsOf catalog lvl = [] →
      buildSingleLevelPlan sh catalog lvl = []) := by
  refine ⟨List.length_take_le 10 _, ?_, ?_, ?_⟩
  · intro q hq
    exact (mem_groupsOf.1 (mem_shuffled_take hsh hq)).2
  · have hsub := List.Sublist.map Question.qid
      (List.take_sublist 10 (sh 0 (groupsOf catalog lvl)))
    refine hsub.nodup ?_
    exact ((hsh 0 (groupsOf catalog lvl)).map Question.qid).nodup_iff.2
      (groupsOf_map_qid_nodup lvl hids)
  · intro hempty
    simp [buildSingleLevelPlan, hempty, (hsh 0 []).eq_nil]

/-- Claim C9 witness at a concrete catalog and tier 1. -/
theorem single_tier_plan_props_witness :
    (buildSingleLevelPlan idShuffle wcatSeven 1).length ≤ 10 ∧
    (∀ q ∈ buildSingleLevelPlan idShuffle wcatSeven 1,
      difficultyOf q = 1) ∧
    ((buildSingleLevelPlan idShuffle wcatSeven 1).map Question.qid).Nodup ∧
    (groupsOf wcatSeven 1 = [] →
      buildSingleLevelPlan idShuffle wcatSeven 1 = []) :=
  single_tier_plan_props idShuffle idShuffle_ok wcatSeven 1
    (by decide) (by decide)

theorem groupsOf_filter_inTier (catalog : List Question) (lvl : Int)
    (hl : lvl ∈ tierLevels) :
    groupsOf (catalog.filter inTier) lvl = groupsOf catalog lvl := by
  unfold groupsOf
  rw [List.filter_filter]
  apply List.filter_congr
  intro q _
  by_cases h : difficultyOf q = lvl
  · simp [inTier, h, hl]
  · simp [h]

/-- Claim C10: a question whose difficulty (default 3 when absent) falls
outside 1..5 is silently excluded from stratified plans: it is never a
member of the built plan, and the plan is identical to the one built from
the catalog restricted to in-range questions, so the question contributes
nothing to the plan's target length. -/
theorem stratified_excludes_out_of_range
    (sh : Nat → List Question → List Question) (hsh : IsShuffler sh)
    (catalog : List Question) (q0 : Question) (hq : q0 ∈ catalog)
    (hout : difficultyOf q0 < 1 ∨ 5 < difficultyOf q0) :
    q0 ∉ buildAllLevelsPlan sh catalog ∧
    buildAllLevelsPlan sh catalog =
      buildAllLevelsPlan sh (catalog.filter inTier) := by
  constructor
  · intro hmem
    have h := (mem_buildAllLevelsPlan hsh hmem).2
    simp [tierLevels] at h
    rcases h with h | h | h | h | h <;> rcases hout with h' | h' <;> omega
  · simp only [buildAllLevelsPlan, backfillPool, firstPass, remainingPool,
      groupsOf_filter_inTier _ _ (by simp [tierLevels] : (1 : Int) ∈ tierLevels),
      groupsOf_filter_inTier _ _ (by simp [tierLevels] : (2 : Int) ∈ tierLevels),
      groupsOf_filter_inTier _ _ (by simp [tierLevels] : (3 : Int) ∈ tierLevels),
      groupsOf_filter_inTier _ _ (by simp [tierLevels] : (4 : Int) ∈ tierLevels),
      groupsOf_filter_inTier _ _ (by simp [tierLevels] : (5 : Int) ∈ tierLevels)]

/-- Claim C10 witness: difficulty-7 question excluded at a concrete run. -/
theorem stratified_excludes_out_of_range_witness :
    wq 1 7 ∉ buildAllLevelsPlan idShuffle wcatBad ∧
    buildAllLevelsPlan idShuffle wcatBad =
      buildAllLevelsPlan idShuffle (wcatBad.filter inTier) :=
  stratified_excludes_out_of_range idShuffle idShuffle_ok wcatBad
    (wq 1 7) (by decide) (by decide)

theorem length_filter_not {α : Type} (p : α → Bool) (l : List α) :
    (l.filter fun a => !(p a)).length = l.length - (l.filter p).length := by
  induction l with
  | nil => rfl
  | cons a t ih =>
    have hle := List.length_filter_le p t
    by_cases h : p a <;> simp [List.filter_cons, h, ih] <;> omega

theorem length_filter_mem {α : Type} [DecidableEq α] {m s : List α}
    (hm : m.Nodup) (hs : s.Nodup) (hsub : ∀ x ∈ s, x ∈ m) :
    (m.filter fun x => decide (x ∈ s)).length = s.length := by
  have hperm : List.Perm (m.filter fun x => decide (x ∈ s)) s := by
    apply (List.perm_ext_iff_of_nodup (hm.filter _) hs).2
    intro a
    rw [List.mem_filter]
    constructor
    · intro h
      exact of_decide_eq_true h.2
    · intro h
      exact ⟨hsub a h, decide_eq_true h⟩
  exact hperm.length_eq

theorem count_filter_eq {α : Type} [DecidableEq α] (p : α → Bool) (a : α)
    (l : List α) :
    (l.filter p).count a = if p a = true then l.count a else 0 := by
  by_cases h : p a = true
  · simp [h]
  · rw [if_neg h]
    exact List.count_eq_zero.2 fun hm => h (List.mem_filter.1 hm).2

theorem nodup_of_subperm {α : Type} {l₁ l₂ : List α}
    (h : List.Subperm l₁ l₂) (h₂ : l₂.Nodup) : l₁.Nodup := by
  obtain ⟨u, hperm, hsub⟩ := h
  exact hperm.nodup_iff.1 (hsub.nodup h₂)

theorem subperm_map {α β : Type} (f : α → β) {l₁ l₂ : List α}
    (h : List.Subperm l₁ l₂) : List.Subperm (l₁.map f) (l₂.map f) := by
  obtain ⟨u, hperm, hsub⟩ := h
  exact ⟨u.map f, hperm.map f, hsub.map f⟩

theorem take_shuffled_subperm {sh : Nat → List Question → List Question}
    (hsh : IsShuffler sh) (i n : Nat) (l : List Question) :
    List.Subperm ((sh i l).take n) l :=
  (List.take_sublist n (sh i l)).subperm.trans (hsh i l).subperm

theorem subperm_append {α : Type} {l₁ l₂ r₁ r₂ : List α}
    (h₁ : List.Subperm l₁ l₂) (h₂ : List.Subperm r₁ r₂) :
    List.Subperm (l₁ ++ r₁) (l₂ ++ r₂) := by
  obtain ⟨u, hu1, hu2⟩ := h₁
  obtain ⟨v, hv1, hv2⟩ := h₂
  exact ⟨u ++ v, hu1.append hv1, hu2.append hv2⟩

/-- The five per-tier pools, concatenated, are a permutation of the
catalog's in-range questions. -/
theorem groupsConcat_perm (catalog : List Question) :
    List.Perm (groupsConcat catalog) (catalog.filter inTier) := by
  rw [List.perm_iff_count]
  intro a
  simp only [groupsConcat, List.count_append, groupsOf, inTier,
    count_filter_eq]
  by_cases h : difficultyOf a ∈ tierLevels
  · simp only [tierLevels, List.mem_cons, List.not_mem_nil, or_false] at h
    rcases h with h | h | h | h | h <;> simp [h, tierLevels]
  · have h1 : ¬difficultyOf a = 1 := fun hh => h (by simp [tierLevels, hh])
    have h2 : ¬difficultyOf a = 2 := fun hh => h (by simp [tierLevels, hh])
    have h3 : ¬difficultyOf a = 3 := fun hh => h (by simp [tierLevels, hh])
    have h4 : ¬difficultyOf a = 4 := fun hh => h (by simp [tierLevels, hh])
    have h5 : ¬difficultyOf a = 5 := fun hh => h (by simp [tierLevels, hh])
    simp [h, h1, h2, h3, h4, h5]

theorem groupsConcat_qid_nodup {catalog : List Question}
    (hids : (catalog.map Question.qid).Nodup) :
    ((groupsConcat catalog).map Question.qid).Nodup :=
  ((groupsConcat_perm catalog).map Question.qid).nodup_iff.2
    (List.Sublist.nodup
      (List.Sublist.map Question.qid (List.filter_sublist catalog)) hids)

theorem filter_inTier_of_all {catalog : List Question}
    (hall : ∀ q ∈ catalog, 1 ≤ difficultyOf q ∧ difficultyOf q ≤ 5) :
    catalog.filter inTier = catalog := by
  apply List.filter_eq_self.2
  intro q hq
  have hb := hall q hq
  simp only [inTier, tierLevels, List.mem_cons, List.not_mem_nil, or_false,
    decide_eq_true_eq]
  omega

theorem remainingPool_perm {sh : Nat → List Question → List Question}
    (hsh : IsShuffler sh) (catalog : List Question) :
    List.Perm (remainingPool sh catalog) (groupsConcat catalog) := by
  unfold remainingPool groupsConcat
  exact ((((hsh 6 _).append (hsh 7 _)).append (hsh 8 _)).append
    (hsh 9 _)).append (hsh 10 _)

theorem firstPass_subperm {sh : Nat → List Question → List Question}
    (hsh : IsShuffler sh) (catalog : List Question) :
    List.Subperm (firstPass sh catalog) (groupsConcat catalog) := by
  unfold firstPass groupsConcat
  exact subperm_append (subperm_append (subperm_append (subperm_append
    (take_shuffled_subperm hsh 1 2 _) (take_shuffled_subperm hsh 2 2 _))
    (take_shuffled_subperm hsh 3 2 _)) (take_shuffled_subperm hsh 4 2 _))
    (take_shuffled_subperm hsh 5 2 _)

theorem firstPass_qid_nodup {sh : Nat → List Question → List Question}
    {catalog : List Question} (hsh : IsShuffler sh)
    (hids : (catalog.map Question.qid).Nodup) :
    ((firstPass sh catalog).map Question.qid).Nodup :=
  nodup_of_subperm (subperm_map Question.qid (firstPass_subperm hsh catalog))
    (groupsConcat_qid_nodup hids)

theorem firstPass_length {sh : Nat → List Question → List Question}
    (hsh : IsShuffler sh) (catalog : List Question) :
    (firstPass sh catalog).length =
      min 2 (groupsOf catalog 1).length + min 2 (groupsOf catalog 2).length +
      min 2 (groupsOf catalog 3).length + min 2 (groupsOf catalog 4).length +
      min 2 (groupsOf catalog 5).length := by
  simp [firstPass, List.length_append, List.length_take,
    (hsh 1 _).length_eq, (hsh 2 _).length_eq, (hsh 3 _).length_eq,
    (hsh 4 _).length_eq, (hsh 5 _).length_eq]
  omega

theorem groupsConcat_length (catalog : List Question) :
    (groupsConcat catalog).length =
      (groupsOf catalog 1).length + (groupsOf catalog 2).length +
      (groupsOf catalog 3).length + (groupsOf catalog 4).length +
      (groupsOf catalog 5).length := by
  simp [groupsConcat, List.length_append]
  omega

theorem filter_tier_of_all_eq {l : List Question} {k lvl : Int}
    (hall : ∀ q ∈ l, difficultyOf q = k) :
    (l.filter fun q => decide (difficultyOf q = lvl)) =
      if k = lvl then l else [] := by
  by_cases h : k = lvl
  · subst h
    rw [if_pos rfl]
    exact List.filter_eq_self.2 fun a ha => by simp [hall a ha]
  · rw [if_neg h]
    apply List.filter_eq_nil_iff.2
    intro a ha
    simp [hall a ha, h]

theorem mem_piece_tier {sh : Nat → List Question → List Question}
    (hsh : IsShuffler sh) {catalog : List Question} {i n : Nat} {k : Int}
    {q : Question} (h : q ∈ (sh i (groupsOf catalog k)).take n) :
    difficultyOf q = k :=
  (mem_groupsOf.1 (mem_shuffled_take hsh h)).2

theorem firstPass_count_tier {sh : Nat → List Question → List Question}
    (hsh : IsShuffler sh) (catalog : List Question) (lvl : Int)
    (hl : lvl ∈ tierLevels) :
    ((firstPass sh catalog).filter
      fun q => decide (difficultyOf q = lvl)).length =
      min 2 (groupsOf catalog lvl).length := by
  unfold firstPass
  rw [List.filter_append, List.filter_append, List.filter_append,
    List.filter_append,
    filter_tier_of_all_eq fun q hq => mem_piece_tier hsh hq,
    filter_tier_of_all_eq fun q hq => mem_piece_tier hsh hq,
    filter_tier_of_all_eq fun q hq => mem_piece_tier hsh hq,
    filter_tier_of_all_eq fun q hq => mem_piece_tier hsh hq,
    filter_tier_of_all_eq fun q hq => mem_piece_tier hsh hq]
  simp only [tierLevels, List.mem_cons, List.not_mem_nil, or_false] at hl
  rcases hl with h | h | h | h | h <;> subst h <;>
    simp [List.length_take, (hsh 1 _).length_eq, (hsh 2 _).length_eq,
      (hsh 3 _).length_eq, (hsh 4 _).length_eq, (hsh 5 _).length_eq]

/-- Claim C1: on a catalog of pairwise distinct records with at least two
questions in every tier 1..5, the stratified builder returns exactly 10
questions, exactly two of each tier, pairwise distinct by identity, for
every admissible random outcome. -/
theorem stratified_two_per_tier (sh : Nat → List Question → List Question)
    (hsh : IsShuffler sh) (catalog : List Question)
    (hids : (catalog.map Question.qid).Nodup)
    (h2 : ∀ lvl ∈ tierLevels, 2 ≤ (groupsOf catalog lvl).length) :
    (buildAllLevelsPlan sh catalog).length = 10 ∧
    (∀ lvl ∈ tierLevels,
      ((buildAllLevelsPlan sh catalog).filter
        fun q => decide (difficultyOf q = lvl)).length = 2) ∧
    ((buildAllLevelsPlan sh catalog).map Question.qid).Nodup := by
  have hg1 := h2 1 (by simp [tierLevels])
  have hg2 := h2 2 (by simp [tierLevels])
  have hg3 := h2 3 (by simp [tierLevels])
  have hg4 := h2 4 (by simp [tierLevels])
  have hg5 := h2 5 (by simp [tierLevels])
  have hp0 : (firstPass sh catalog).length = 10 := by
    rw [firstPass_length hsh]
    omega
  have hnotlt : ¬(firstPass sh catalog).length < 10 := by omega
  have hplan : buildAllLevelsPlan sh catalog =
      (sh 12 (firstPass sh catalog)).take 10 := by
    simp only [buildAllLevelsPlan]
    rw [if_neg hnotlt]
  have hlen12 : (sh 12 (firstPass sh catalog)).length = 10 :=
    (hsh 12 _).length_eq.trans hp0
  have hperm : List.Perm (buildAllLevelsPlan sh catalog)
      (firstPass sh catalog) := by
    rw [hplan, List.take_of_length_le (le_of_eq hlen12)]
    exact hsh 12 _
  refine ⟨hperm.length_eq.trans hp0, ?_, ?_⟩
  · intro lvl hl
    rw [(hperm.filter _).length_eq, firstPass_count_tier hsh catalog lvl hl]
    have := h2 lvl hl
    omega
  · exact (hperm.map Question.qid).nodup_iff.2 (firstPass_qid_nodup hsh hids)

/-- Claim C1 witness: a catalog with exactly two questions per tier. -/
theorem stratified_two_per_tier_witness :
    (buildAllLevelsPlan idShuffle wcatFull).length = 10 ∧
    (∀ lvl ∈ tierLevels,
      ((buildAllLevelsPlan idShuffle wcatFull).filter
        fun q => decide (difficultyOf q = lvl)).length = 2) ∧
    ((buildAllLevelsPlan idShuffle wcatFull).map Question.qid).Nodup :=
  stratified_two_per_tier idShuffle idShuffle_ok wcatFull
    (by decide) (by decide)

theorem selected_subset {sh : Nat → List Question → List Question}
    {catalog : List Question} (hsh : IsShuffler sh) :
    ∀ x ∈ (firstPass sh catalog).map Question.qid,
      x ∈ catalog.map Question.qid := by
  intro x hx
  obtain ⟨q, hq, rfl⟩ := List.mem_map.1 hx
  exact List.mem_map.2 ⟨q, (mem_firstPass hsh hq).1, rfl⟩

theorem remainingPool_map_qid_perm
    {sh : Nat → List Question → List Question} (hsh : IsShuffler sh)
    {catalog : List Question}
    (hall : ∀ q ∈ catalog, 1 ≤ difficultyOf q ∧ difficultyOf q ≤ 5) :
    List.Perm ((remainingPool sh catalog).map Question.qid)
      (catalog.map Question.qid) := by
  have h := ((remainingPool_perm hsh catalog).trans
    (groupsConcat_perm catalog)).map Question.qid
  rwa [filter_inTier_of_all hall] at h

theorem backfillPool_length {sh : Nat → List Question → List Question}
    (hsh : IsShuffler sh) {catalog : List Question}
    (hids : (catalog.map Question.qid).Nodup)
    (hall : ∀ q ∈ catalog, 1 ≤ difficultyOf q ∧ difficultyOf q ≤ 5) :
    (backfillPool sh catalog).length =
      catalog.length - (firstPass sh catalog).length := by
  have h1 : backfillPool sh catalog = (remainingPool sh catalog).filter
      fun q =>
        !(decide (q.qid ∈ (firstPass sh catalog).map Question.qid)) := by
    rw [backfillPool]
    exact List.filter_congr fun a _ => by simp only [decide_not]
  rw [h1, length_filter_not]
  have hrp : (remainingPool sh catalog).length = catalog.length := by
    rw [(remainingPool_perm hsh catalog).length_eq,
      (groupsConcat_perm catalog).length_eq, filter_inTier_of_all hall]
  have hcount : ((remainingPool sh catalog).filter
      fun q =>
        decide (q.qid ∈ (firstPass sh catalog).map Question.qid)).length =
      (firstPass sh catalog).length := by
    rw [← List.countP_eq_length_filter]
    have hmap : List.countP
        (fun q =>
          decide (q.qid ∈ (firstPass sh catalog).map Question.qid))
        (remainingPool sh catalog) =
        List.countP
          (fun x => decide (x ∈ (firstPass sh catalog).map Question.qid))
          ((remainingPool sh catalog).map Question.qid) := by
      rw [List.countP_map]
      rfl
    rw [hmap, (remainingPool_map_qid_perm hsh hall).countP_eq,
      List.countP_eq_length_filter]
    rw [length_filter_mem hids (firstPass_qid_nodup hsh hids)
      (selected_subset hsh)]
    exact List.length_map _ _
  rw [hrp, hcount]

theorem backfillPool_qid_nodup {sh : Nat → List Question → List Question}
    (hsh : IsShuffler sh) {catalog : List Question}
    (hids : (catalog.map Question.qid).Nodup) :
    ((backfillPool sh catalog).map Question.qid).Nodup := by
  have hsub : List.Sublist ((backfillPool sh catalog).map Question.qid)
      ((remainingPool sh catalog).map Question.qid) :=
    List.Sublist.map Question.qid (List.filter_sublist _)
  refine hsub.nodup ?_
  exact (((remainingPool_perm hsh catalog).map Question.qid).nodup_iff).2
    (groupsConcat_qid_nodup hids)

theorem plan1_qid_nodup {sh : Nat → List Question → List Question}
    (hsh : IsShuffler sh) {catalog : List Question}
    (hids : (catalog.map Question.qid).Nodup) (n : Nat) :
    ((firstPass sh catalog ++
      (sh 11 (backfillPool sh catalog)).take n).map Question.qid).Nodup := by
  rw [List.map_append]
  refine List.Nodup.append (firstPass_qid_nodup hsh hids) ?_ ?_
  · refine List.Sublist.nodup
      (List.Sublist.map Question.qid (List.take_sublist n _)) ?_
    exact (((hsh 11 _).map Question.qid).nodup_iff).2
      (backfillPool_qid_nodup hsh hids)
  · intro x hx1 hx2
    obtain ⟨q, hq, rfl⟩ := List.mem_map.1 hx2
    have hq2 := mem_shuffled_take hsh hq
    rw [backfillPool, List.mem_filter] at hq2
    exact absurd hx1 (of_decide_eq_true hq2.2)

/-- Claim C2: on a catalog of pairwise distinct records whose difficulties
all lie in 1..5, the stratified builder returns, for every admissible
random outcome, a duplicate-free plan of length min 10 (total questions):
exactly 10 once at least 10 exist (scarce tiers are backfilled), and all
available questions when fewer than 10 exist. -/
theorem stratified_length_min (sh : Nat → List Question → List Question)
    (hsh : IsShuffler sh) (catalog : List Question)
    (hids : (catalog.map Question.qid).Nodup)
    (hall : ∀ q ∈ catalog, 1 ≤ difficultyOf q ∧ difficultyOf q ≤ 5) :
    (buildAllLevelsPlan sh catalog).length = min 10 catalog.length ∧
    ((buildAllLevelsPlan sh catalog).map Question.qid).Nodup := by
  have hN : (groupsConcat catalog).length = catalog.length := by
    rw [(groupsConcat_perm catalog).length_eq, filter_inTier_of_all hall]
  have hGsum := groupsConcat_length catalog
  have hfpl := firstPass_length hsh catalog
  by_cases hlt : (firstPass sh catalog).length < 10
  · -- backfill branch
    have hplan : buildAllLevelsPlan sh catalog =
        (sh 12 (firstPass sh catalog ++
          (sh 11 (backfillPool sh catalog)).take
            (10 - (firstPass sh catalog).length))).take 10 := by
      simp only [buildAllLevelsPlan]
      rw [if_pos hlt]
    have hp0N : (firstPass sh catalog).length ≤ catalog.length := by
      have hs := List.Nodup.subperm (firstPass_qid_nodup hsh hids)
        (selected_subset hsh)
      have hle := hs.length_le
      rw [List.length_map, List.length_map] at hle
      exact hle
    have hlen : (buildAllLevelsPlan sh catalog).length =
        min 10 catalog.length := by
      rw [hplan, List.length_take, (hsh 12 _).length_eq,
        List.length_append, List.length_take, (hsh 11 _).length_eq,
        backfillPool_length hsh hids hall]
      omega
    refine ⟨hlen, ?_⟩
    have hsub : List.Sublist
        ((buildAllLevelsPlan sh catalog).map Question.qid)
        ((sh 12 (firstPass sh catalog ++
          (sh 11 (backfillPool sh catalog)).take
            (10 - (firstPass sh catalog).length))).map Question.qid) := by
      rw [hplan]
      exact List.Sublist.map _ (List.take_sublist _ _)
    refine hsub.nodup ?_
    exact (((hsh 12 _).map Question.qid).nodup_iff).2
      (plan1_qid_nodup hsh hids _)
  · -- first pass already reached 10
    have hplan : buildAllLevelsPlan sh catalog =
        (sh 12 (firstPass sh catalog)).take 10 := by
      simp only [buildAllLevelsPlan]
      rw [if_neg hlt]
    have hlen : (buildAllLevelsPlan sh catalog).length =
        min 10 catalog.length := by
      rw [hplan, List.length_take, (hsh 12 _).length_eq]
      omega
    refine ⟨hlen, ?_⟩
    have hsub : List.Sublist
        ((buildAllLevelsPlan sh catalog).map Question.qid)
        ((sh 12 (firstPass sh catalog)).map Question.qid) := by
      rw [hplan]
      exact List.Sublist.map _ (List.take_sublist _ _)
    exact hsub.nodup ((((hsh 12 _).map Question.qid).nodup_iff).2
      (firstPass_qid_nodup hsh hids))

/-- Claim C2 witness: a seven-question catalog over scarce tiers yields a
plan of length min 10 7 = 7 without duplicates. -/
theorem stratified_length_min_witness :
    (buildAllLevelsPlan idShuffle wcatSeven).length =
      min 10 wcatSeven.length ∧
    ((buildAllLevelsPlan idShuffle wcatSeven).map Question.qid).Nodup :=
  stratified_length_min idShuffle idShuffle_ok wcatSeven
    (by decide) (by decide)
